import Mathlib

/-!
Verification development for the stgy full-text search/indexing engine.

The engine itself ships outside this source tree; the repository holds its
integration tests (`tests/ttts_endpoint_test.py`, `tests/endpoint_test.py`).
The definitions below are therefore modelled from the design specification
(`spec.md`), component by component: the tokenizer (spec 4.1), the pending
queue and update worker (spec 4.2), the shard store (spec 4.3), the query
engine (spec 4.4) and the maintenance controller (spec 4.5), together with
the HTTP status codes of spec 6.  Constants observed in the test suite are
embedded under their own names.
-/

/-- Modelled from the spec: helper splitting a character list into maximal
runs of characters satisfying `p` (the tokenizer "splits on
whitespace/punctuation", spec 4.1).  `cur` accumulates the current run in
reverse. -/
def chunksAux (p : Char → Bool) : List Char → List Char → List (List Char)
  | cur, [] => if cur = [] then [] else [cur.reverse]
  | cur, c :: cs =>
    if p c then chunksAux p (c :: cur) cs
    else if cur = [] then chunksAux p [] cs
    else cur.reverse :: chunksAux p [] cs

/-- Modelled from the spec: maximal runs of characters satisfying `p`. -/
def chunks (p : Char → Bool) (cs : List Char) : List (List Char) :=
  chunksAux p [] cs

/-- Modelled from the spec: ASCII lowercasing of a single character
(spec 4.1 "English-like locales ... lowercase"). -/
def lowerChar (c : Char) : Char :=
  if 65 ≤ c.toNat ∧ c.toNat ≤ 90 then Char.ofNat (c.toNat + 32) else c

/-- Modelled from the spec: token characters are the letters and digits;
everything else (whitespace, punctuation) separates tokens (spec 4.1). -/
def isTokenChar (c : Char) : Bool :=
  (48 ≤ c.toNat && c.toNat ≤ 57) || (65 ≤ c.toNat && c.toNat ≤ 90) ||
    (97 ≤ c.toNat && c.toNat ≤ 122)

/-- Whitespace characters: space, tab, line feed, carriage return. -/
def isWsChar (c : Char) : Bool :=
  c.toNat = 32 || c.toNat = 9 || c.toNat = 10 || c.toNat = 13

/-- Modelled from the spec: `tokenize(text, locale)` returns the ordered
sequence of lowercase tokens, splitting on whitespace/punctuation
(spec 4.1).  Token characters are the alphanumerics; the modelling uses the
same deterministic pipeline for every locale, which is the single locale
behaviour the tests exercise. -/
def tokenize (text : String) (locale : String) : List String :=
  (chunks isTokenChar text.data).map (fun w => String.mk (w.map lowerChar))

/-- Modelled from the spec: the `GET /{resource}/tokenize` endpoint, status
200 with the token list (spec 6). -/
def tokenizeEndpoint (text locale : String) : Nat × List String :=
  (200, tokenize text locale)

/-- Whitespace splitting of a fetched body, as the test suite does with
Python `str.split()`. -/
def splitWords (s : String) : List String :=
  (chunks (fun c => !isWsChar c) s.data).map String.mk

/-- Join character runs with a separator character. -/
def joinSep (sep : Char) : List (List Char) → List Char
  | [] => []
  | [w] => w
  | w :: ws => w ++ sep :: joinSep sep ws

/-- Render a token list as a stored body text, tokens separated by single
spaces. -/
def renderBody (toks : List String) : String :=
  String.mk (joinSep ' ' (toks.map String.data))

/-- Modelled from the spec: a document record (spec 3): caller-supplied
string id, body text, integer timestamp, locale and an opaque `attrs`
blob stored verbatim. -/
structure Document where
  id : String
  bodyText : String
  timestamp : Nat
  locale : String
  attrs : String
deriving Repr, DecidableEq

/-- Modelled from the spec: a pending mutation (spec 3), either an upsert
of a whole document or a delete of an id at a timestamp. -/
inductive Mutation where
  | upsert : Document → Mutation
  | delete : String → Nat → Mutation
deriving Repr, DecidableEq

/-- The document id a mutation is keyed by. -/
def mutId : Mutation → String
  | .upsert d => d.id
  | .delete i _ => i

/-- Modelled from the spec: the engine state: bucket width configuration,
pending mutation log, shard store (bucket start mapped to committed
documents), the two maintenance gates and the reserved id set
(spec 2 and 3). -/
structure EngineState where
  width : Nat
  pending : List Mutation
  shards : List (Nat × List Document)
  reservationMode : Bool
  maintenanceMode : Bool
  reserved : List (String × Nat)
deriving Repr, DecidableEq

/-- Modelled from the spec: the initial state: empty queue, no shards, both
modes off (the reservation-mode scenario starts at `enabled:false`). -/
def initState (width : Nat) : EngineState :=
  ⟨width, [], [], false, false, []⟩

/-- Modelled from the spec: appending to the pending log coalesces by
document id, last writer wins (spec 3, 4.2). -/
def coalesce (pending : List Mutation) (m : Mutation) : List Mutation :=
  pending.filter (fun q => mutId q != mutId m) ++ [m]

/-- Modelled from the spec: `PUT /{resource}/{id}` enqueues an upsert and
answers 202 immediately (spec 4.2, 6). -/
def putDoc (st : EngineState) (id text : String) (ts : Nat) (locale attrs : String) :
    Nat × EngineState :=
  (202, { st with pending := coalesce st.pending (Mutation.upsert ⟨id, text, ts, locale, attrs⟩) })

/-- Modelled from the spec: `DELETE /{resource}/{id}` enqueues a delete and
answers 202 immediately (spec 4.2, 6). -/
def deleteDoc (st : EngineState) (id : String) (ts : Nat) : Nat × EngineState :=
  (202, { st with pending := coalesce st.pending (Mutation.delete id ts) })

/-- Modelled from the spec: shard selection is a pure function of the
timestamp, fixed-width flooring `bucketStart = floor(t / width) * width`
(spec 3, 9). -/
def bucketOf (width t : Nat) : Nat := t / width * width

/-- Modelled from the spec: indexing a document at commit time replaces its
body by the normalized token sequence, duplicates removed, so that the
fetched body's word set equals `tokenize(bodyText, locale)` as a set
(spec 4.1, 8). -/
def indexDoc (d : Document) : Document :=
  { d with bodyText := renderBody ((tokenize d.bodyText d.locale).dedup) }

/-- Remove a document id from every shard (a committed document lives in
exactly one shard, spec 3). -/
def removeId (id : String) (shards : List (Nat × List Document)) :
    List (Nat × List Document) :=
  shards.map (fun p => (p.1, p.2.filter (fun d => d.id != id)))

/-- Modelled from the spec: committing an upsert places the indexed
document into the shard its timestamp maps to, creating that shard lazily
(spec 4.3). -/
def upsertShard (width : Nat) (shards : List (Nat × List Document)) (d : Document) :
    List (Nat × List Document) :=
  let b := bucketOf width d.timestamp
  let cleared := removeId d.id shards
  if cleared.any (fun p => p.1 == b) then
    cleared.map (fun p => if p.1 == b then (p.1, p.2 ++ [indexDoc d]) else p)
  else cleared ++ [(b, [indexDoc d])]

/-- Modelled from the spec: the update worker commits one pending mutation
into the shard store (spec 4.2, 4.3). -/
def commitMutation (width : Nat) (shards : List (Nat × List Document)) :
    Mutation → List (Nat × List Document)
  | .upsert d => upsertShard width shards d
  | .delete id ts =>
    shards.map (fun p =>
      if p.1 == bucketOf width ts then (p.1, p.2.filter (fun d => d.id != id)) else p)

/-- Modelled from the spec: `flush` drains the pending queue into the shard
store in enqueue order (spec 4.2). -/
def flushState (st : EngineState) : EngineState :=
  { st with pending := [], shards := st.pending.foldl (commitMutation st.width) st.shards }

/-- A hydrated fetch response; omitted heavy fields come back as `null`
(spec 4.4). -/
structure FetchResponse where
  id : String
  bodyText : Option String
  attrs : Option String
  timestamp : Nat
  locale : String
deriving Repr, DecidableEq

/-- Point lookup in the shard store. -/
def lookupDoc (shards : List (Nat × List Document)) (id : String) : Option Document :=
  shards.findSome? (fun p => p.2.find? (fun d => d.id == id))

/-- Modelled from the spec: `GET /{resource}/{id}` point fetch, 200 with the
document or 404; `omitBodyText` and `omitAttrs` suppress the heavy fields
(spec 4.4, 6). -/
def fetchDoc (st : EngineState) (id : String) (omitBodyText omitAttrs : Bool) :
    Nat × Option FetchResponse :=
  match lookupDoc st.shards id with
  | none => (404, none)
  | some d =>
    (200, some ⟨d.id, if omitBodyText then none else some d.bodyText,
                if omitAttrs then none else some d.attrs, d.timestamp, d.locale⟩)

/-- Modelled from the spec: `GET /{resource}/shards` lists each shard's
`[startTimestamp, endTimestamp)` range (spec 4.3, 6). -/
def listShards (st : EngineState) : List (Nat × Nat) :=
  st.shards.map (fun p => (p.1, p.1 + st.width))

/-- Modelled from the spec: `DELETE /{resource}/shards/{bucketTimestamp}`
removes the shard whose bucket key the same bucketing function resolves the
timestamp to, 200 on success (spec 4.5, 6). -/
def deleteShard (st : EngineState) (bucketTimestamp : Nat) : Nat × EngineState :=
  let b := bucketOf st.width bucketTimestamp
  if st.shards.any (fun p => p.1 == b) then
    (200, { st with shards := st.shards.filter (fun p => p.1 != b) })
  else (404, st)

/-- Modelled from the spec: `GET /{resource}/reservation-mode` reports the
current gate, always 200 (spec 4.5, 6). -/
def getReservationMode (st : EngineState) : Nat × Bool :=
  (200, st.reservationMode)

/-- Modelled from the spec: `PUT /{resource}/reservation-mode` turns the
gate on and reports `enabled:true` (spec 4.5, 6). -/
def putReservationMode (st : EngineState) : (Nat × Bool) × EngineState :=
  ((200, true), { st with reservationMode := true })

/-- Modelled from the spec: `DELETE /{resource}/reservation-mode` turns the
gate off and reports `enabled:false` (spec 4.5, 6). -/
def deleteReservationMode (st : EngineState) : (Nat × Bool) × EngineState :=
  ((200, false), { st with reservationMode := false })

/-- Modelled from the spec: `POST /{resource}/reserve` records claimed ids
while reservation mode is on, answering `result:"reserved"`, and must not
create documents; outside the mode it is a mode conflict (spec 4.5, 7). -/
def reserveIds (st : EngineState) (entries : List (String × Nat)) :
    (Nat × String) × EngineState :=
  if st.reservationMode then
    ((200, "reserved"), { st with reserved := st.reserved ++ entries })
  else ((409, "error"), st)

/-- Modelled from the spec: reconstruction reassigns new sequential ids
starting at `next` to the documents of a shard, preserving content, locale
and attrs (spec 4.5). -/
def reassignFrom (next : Nat) : List Document → List Document
  | [] => []
  | d :: ds => { d with id := Nat.repr next } :: reassignFrom (next + 1) ds

/-- Modelled from the spec: `reconstruct(timestamp, newInitialId)` rewrites
the shard touched by `timestamp`, reassigning sequential ids from
`newInitialId` (spec 4.5). -/
def reconstructShards (st : EngineState) (timestamp newInitialId : Nat) : EngineState :=
  let b := bucketOf st.width timestamp
  { st with shards := st.shards.map (fun p =>
      if p.1 == b then (p.1, reassignFrom newInitialId p.2) else p) }

/-- Modelled from the spec: the like-record delete of the social-network
caller: deleting an existing like succeeds with 200, deleting a nonexistent
one answers 404 (spec 8 unlike-delete-twice law). -/
def deleteLike (likes : List String) (postId : String) : Nat × List String :=
  if likes.contains postId then (200, likes.filter (fun q => q != postId))
  else (404, likes)

/-- The shard the integration test `test_shards` looks for after its
flushed write at timestamp 100: it selects the listed shard with
`startTimestamp == 0` (tests/ttts_endpoint_test.py line 153). -/
def testShardsTargetStart : Nat := 0

/-- Packing a valid code point and reading it back is the identity. -/
theorem toNat_ofNat_valid (n : Nat) (h : n.isValidChar) : (Char.ofNat n).toNat = n := by
  unfold Char.ofNat
  rw [dif_pos h]
  rfl

/-- Lowercasing never produces an uppercase ASCII letter. -/
theorem lowerChar_not_upper (c : Char) :
    ¬ (65 ≤ (lowerChar c).toNat ∧ (lowerChar c).toNat ≤ 90) := by
  unfold lowerChar
  by_cases h : 65 ≤ c.toNat ∧ c.toNat ≤ 90
  · rw [if_pos h]
    have hv : (c.toNat + 32).isValidChar := by
      constructor
      omega
    rw [toNat_ofNat_valid _ hv]
    omega
  · rw [if_neg h]
    exact h

/-- Lowercasing a token character never yields a whitespace character. -/
theorem lowerChar_token_not_ws (c : Char) (h : isTokenChar c = true) :
    isWsChar (lowerChar c) = false := by
  have hc : (48 ≤ c.toNat ∧ c.toNat ≤ 57) ∨ (65 ≤ c.toNat ∧ c.toNat ≤ 90) ∨
      (97 ≤ c.toNat ∧ c.toNat ≤ 122) := by
    simp only [isTokenChar, Bool.or_eq_true, Bool.and_eq_true, decide_eq_true_eq] at h
    tauto
  unfold lowerChar
  by_cases hup : 65 ≤ c.toNat ∧ c.toNat ≤ 90
  · rw [if_pos hup]
    have hv : (c.toNat + 32).isValidChar := by
      constructor
      omega
    simp only [isWsChar, toNat_ofNat_valid _ hv, Bool.or_eq_false_iff, decide_eq_false_iff_not]
    omega
  · rw [if_neg hup]
    simp only [isWsChar, Bool.or_eq_false_iff, decide_eq_false_iff_not]
    omega

/-- Every chunk is a nonempty run of characters satisfying the predicate. -/
theorem chunksAux_good (p : Char → Bool) :
    ∀ (cs cur : List Char), (∀ c ∈ cur, p c = true) →
      ∀ w ∈ chunksAux p cur cs, w ≠ [] ∧ ∀ c ∈ w, p c = true := by
  intro cs
  induction cs with
  | nil =>
    intro cur hcur w hw
    by_cases hc : cur = []
    · simp [chunksAux, hc] at hw
    · simp only [chunksAux, if_neg hc, List.mem_singleton] at hw
      subst hw
      refine ⟨by simpa using hc, ?_⟩
      intro c hcm
      exact hcur c (List.mem_reverse.mp hcm)
  | cons c cs ih =>
    intro cur hcur w hw
    by_cases hp : p c = true
    · rw [chunksAux, if_pos hp] at hw
      refine ih (c :: cur) ?_ w hw
      intro d hd
      rcases List.mem_cons.mp hd with h1 | h1
      · subst h1; exact hp
      · exact hcur d h1
    · rw [chunksAux, if_neg hp] at hw
      by_cases hc : cur = []
      · rw [if_pos hc] at hw
        exact ih [] (by simp) w hw
      · rw [if_neg hc] at hw
        rcases List.mem_cons.mp hw with h1 | h1
        · subst h1
          refine ⟨by simpa using hc, ?_⟩
          intro d hd
          exact hcur d (List.mem_reverse.mp hd)
        · exact ih [] (by simp) w h1

/-- Consuming a run of good characters just extends the accumulator. -/
theorem chunksAux_run (p : Char → Bool) :
    ∀ (w : List Char), (∀ c ∈ w, p c = true) →
      ∀ (cur cs : List Char), chunksAux p cur (w ++ cs) = chunksAux p (w.reverse ++ cur) cs := by
  intro w
  induction w with
  | nil => intro _ cur cs; simp
  | cons c w ih =>
    intro hgood cur cs
    have hp : p c = true := hgood c (by simp)
    rw [List.cons_append, chunksAux, if_pos hp, ih (fun d hd => hgood d (by simp [hd])) (c :: cur) cs]
    simp

/-- Unfolding of `joinSep` on a nonempty list of runs. -/
theorem joinSep_cons (sep : Char) (w : List Char) (ws : List (List Char)) :
    joinSep sep (w :: ws) = w ++ (ws.map (fun v => sep :: v)).flatten := by
  induction ws generalizing w with
  | nil => simp [joinSep]
  | cons w2 ws ih =>
    rw [show joinSep sep (w :: w2 :: ws) = w ++ sep :: joinSep sep (w2 :: ws) from rfl, ih w2]
    simp

/-- Consuming separator-prefixed good runs flushes the accumulator and
yields the runs themselves. -/
theorem chunksAux_sep_runs (p : Char → Bool) (sep : Char) (hsep : p sep = false) :
    ∀ (ws : List (List Char)), (∀ w ∈ ws, w ≠ [] ∧ ∀ c ∈ w, p c = true) →
      ∀ cur : List Char, cur ≠ [] →
        chunksAux p cur ((ws.map (fun w => sep :: w)).flatten) = cur.reverse :: ws := by
  intro ws
  induction ws with
  | nil =>
    intro _ cur hcur
    simp [chunksAux, hcur]
  | cons w ws ih =>
    intro hgood cur hcur
    have hw := hgood w (by simp)
    rw [List.map_cons, List.flatten_cons, List.cons_append, chunksAux]
    rw [if_neg (by simp [hsep]), if_neg hcur]
    rw [chunksAux_run p w hw.2 [] _]
    rw [List.append_nil]
    rw [ih (fun v hv => hgood v (by simp [hv])) w.reverse (by simpa using hw.1)]
    simp

/-- Joining with a separator and re-chunking recovers the runs. -/
theorem chunks_joinSep (p : Char → Bool) (sep : Char) (hsep : p sep = false)
    (ws : List (List Char)) (h : ∀ w ∈ ws, w ≠ [] ∧ ∀ c ∈ w, p c = true) :
    chunks p (joinSep sep ws) = ws := by
  cases ws with
  | nil => simp [chunks, joinSep, chunksAux]
  | cons w ws =>
    have hw := h w (by simp)
    rw [chunks, joinSep_cons, chunksAux_run p w hw.2 [] _, List.append_nil]
    rw [chunksAux_sep_runs p sep hsep ws (fun u hu => h u (by simp [hu]))
      w.reverse (by simpa using hw.1)]
    simp

/-- Mapping pack-after-unpack over a list of strings is the identity. -/
theorem map_mk_data (l : List String) : l.map (fun t => String.mk t.data) = l := by
  induction l with
  | nil => rfl
  | cons a l ih =>
    rw [List.map_cons, ih]

/-- Splitting a rendered body on whitespace recovers the token list, for
tokens that are nonempty and whitespace-free. -/
theorem splitWords_renderBody (toks : List String)
    (h : ∀ t ∈ toks, t.data ≠ [] ∧ ∀ c ∈ t.data, isWsChar c = false) :
    splitWords (renderBody toks) = toks := by
  unfold splitWords renderBody
  rw [show (String.mk (joinSep ' ' (toks.map String.data))).data
      = joinSep ' ' (toks.map String.data) from rfl]
  rw [chunks_joinSep (fun c => !isWsChar c) ' ' (by decide) (toks.map String.data) ?_]
  · rw [List.map_map]
    exact map_mk_data toks
  · intro w hw
    obtain ⟨t, ht, rfl⟩ := List.mem_map.mp hw
    refine ⟨(h t ht).1, ?_⟩
    intro c hc
    rw [Bool.not_eq_true']
    exact (h t ht).2 c hc

/-- Every token the tokenizer emits is nonempty, whitespace-free and
contains no uppercase ASCII letter. -/
theorem tokenize_good (text locale : String) :
    ∀ t ∈ tokenize text locale,
      t.data ≠ [] ∧ (∀ c ∈ t.data, isWsChar c = false)
        ∧ ∀ c ∈ t.data, ¬ (65 ≤ c.toNat ∧ c.toNat ≤ 90) := by
  intro t ht
  unfold tokenize at ht
  obtain ⟨w, hw, rfl⟩ := List.mem_map.mp ht
  have hgood := chunksAux_good isTokenChar text.data [] (by simp) w hw
  refine ⟨?_, ?_, ?_⟩
  · show (w.map lowerChar) ≠ []
    simpa using hgood.1
  · intro c hc
    obtain ⟨c0, hc0, rfl⟩ := List.mem_map.mp hc
    exact lowerChar_token_not_ws c0 (hgood.2 c0 hc0)
  · intro c hc
    obtain ⟨c0, hc0, rfl⟩ := List.mem_map.mp hc
    exact lowerChar_not_upper c0

/-- Deduplicated tokens stay nonempty and whitespace-free. -/
theorem dedup_tokens_good (text locale : String) :
    ∀ t ∈ (tokenize text locale).dedup,
      t.data ≠ [] ∧ ∀ c ∈ t.data, isWsChar c = false := by
  intro t ht
  have h := tokenize_good text locale t (List.mem_dedup.mp ht)
  exact ⟨h.1, h.2.1⟩

/-- Committing a single fresh upsert from the initial state yields exactly
one shard holding the indexed document. -/
theorem flush_put_init (width : Nat) (id text : String) (ts : Nat) (locale attrs : String) :
    flushState (putDoc (initState width) id text ts locale attrs).2
      = ⟨width, [], [(bucketOf width ts, [indexDoc ⟨id, text, ts, locale, attrs⟩])],
         false, false, []⟩ := rfl

/-- Fetching the single committed document, for every combination of the
omit flags. -/
theorem fetch_single (width : Nat) (id text : String) (ts : Nat) (locale attrs : String)
    (ob oa : Bool) :
    fetchDoc (flushState (putDoc (initState width) id text ts locale attrs).2) id ob oa
      = (200, some ⟨id,
          if ob then none else some (renderBody ((tokenize text locale).dedup)),
          if oa then none else some attrs, ts, locale⟩) := by
  rw [flush_put_init]
  unfold fetchDoc lookupDoc
  simp [List.findSome?, List.find?, indexDoc]

/-- C1: for every document committed via PUT with body text and locale, the
set of words of the bodyText a later GET returns equals the token set the
tokenize endpoint yields on the same text and locale. -/
theorem put_flush_fetch_token_set (width : Nat) (id text : String) (ts : Nat)
    (locale attrs : String) :
    ∃ body : String,
      fetchDoc (flushState (putDoc (initState width) id text ts locale attrs).2) id false false
        = (200, some ⟨id, some body, some attrs, ts, locale⟩)
      ∧ (splitWords body).toFinset = (tokenizeEndpoint text locale).2.toFinset := by
  refine ⟨renderBody ((tokenize text locale).dedup), ?_, ?_⟩
  · simpa using fetch_single width id text ts locale attrs false false
  · rw [splitWords_renderBody _ (dedup_tokens_good text locale)]
    show ((tokenize text locale).dedup).toFinset = (tokenize text locale).toFinset
    apply Finset.ext
    intro a
    simp [List.mem_toFinset, List.mem_dedup]

/-- C3: the stored attrs blob comes back byte-for-byte; `omitAttrs` nulls
only attrs, `omitBodyText` nulls only bodyText. -/
theorem attrs_verbatim_and_omit_flags (width : Nat) (id text : String) (ts : Nat)
    (locale attrs : String) :
    ∃ body : String,
      fetchDoc (flushState (putDoc (initState width) id text ts locale attrs).2) id false false
        = (200, some ⟨id, some body, some attrs, ts, locale⟩)
      ∧ fetchDoc (flushState (putDoc (initState width) id text ts locale attrs).2) id false true
        = (200, some ⟨id, some body, none, ts, locale⟩)
      ∧ fetchDoc (flushState (putDoc (initState width) id text ts locale attrs).2) id true false
        = (200, some ⟨id, none, some attrs, ts, locale⟩) := by
  refine ⟨renderBody ((tokenize text locale).dedup), ?_, ?_, ?_⟩
  · simpa using fetch_single width id text ts locale attrs false false
  · simpa using fetch_single width id text ts locale attrs false true
  · simpa using fetch_single width id text ts locale attrs true false

/-- C4: well-formed PUT and DELETE requests answer 202, accepted but not
yet visible: the committed shard store is untouched by the enqueue. -/
theorem enqueue_returns_202 (st : EngineState) (id text : String) (ts : Nat)
    (locale attrs : String) :
    (putDoc st id text ts locale attrs).1 = 202
    ∧ (putDoc st id text ts locale attrs).2.shards = st.shards
    ∧ (deleteDoc st id ts).1 = 202
    ∧ (deleteDoc st id ts).2.shards = st.shards :=
  ⟨rfl, rfl, rfl, rfl⟩

/-- C5: from the initial state, reservation-mode reads false; after PUT it
reads true; while enabled a one-entry reserve answers 200 `reserved` and
creates no documents; after DELETE it reads false again. -/
theorem reservation_mode_scenario (width : Nat) (rid : String) (rts : Nat) :
    (getReservationMode (initState width)).1 = 200
    ∧ (getReservationMode (initState width)).2 = false
    ∧ (putReservationMode (initState width)).1 = (200, true)
    ∧ (getReservationMode (putReservationMode (initState width)).2).2 = true
    ∧ (reserveIds (putReservationMode (initState width)).2 [(rid, rts)]).1 = (200, "reserved")
    ∧ (reserveIds (putReservationMode (initState width)).2 [(rid, rts)]).2.shards = []
    ∧ (reserveIds (putReservationMode (initState width)).2 [(rid, rts)]).2.pending = []
    ∧ (deleteReservationMode
        (reserveIds (putReservationMode (initState width)).2 [(rid, rts)]).2).1 = (200, false)
    ∧ (getReservationMode (deleteReservationMode
        (reserveIds (putReservationMode (initState width)).2 [(rid, rts)]).2).2).2 = false :=
  ⟨rfl, rfl, rfl, rfl, rfl, rfl, rfl, rfl, rfl⟩

/-- C8: the bodyText a GET returns is the normalized token sequence with
duplicates removed, not the raw input: its whitespace split has each token
at most once and is a permutation of the deduplicated tokenize output, and
on a duplicate-bearing input the stored body differs from the raw text. -/
theorem body_is_dedup_token_sequence (width : Nat) (id text : String) (ts : Nat)
    (locale attrs : String) (hdup : ¬ (splitWords text).Nodup) :
    ∃ body : String,
      fetchDoc (flushState (putDoc (initState width) id text ts locale attrs).2) id false false
        = (200, some ⟨id, some body, some attrs, ts, locale⟩)
      ∧ (splitWords body).Nodup
      ∧ (splitWords body).Perm ((tokenize text locale).dedup)
      ∧ body ≠ text := by
  refine ⟨renderBody ((tokenize text locale).dedup), ?_, ?_, ?_, ?_⟩
  · simpa using fetch_single width id text ts locale attrs false false
  · rw [splitWords_renderBody _ (dedup_tokens_good text locale)]
    exact List.nodup_dedup _
  · rw [splitWords_renderBody _ (dedup_tokens_good text locale)]
  · intro he
    apply hdup
    rw [← he, splitWords_renderBody _ (dedup_tokens_good text locale)]
    exact List.nodup_dedup _

/-- C8 witness: the round trip at a concrete duplicate-bearing input. -/
theorem body_is_dedup_token_sequence_witness :
    (¬ (splitWords "the dog the").Nodup)
    ∧ ∃ body : String,
      fetchDoc (flushState (putDoc (initState 100) "d1" "the dog the" 105 "en" "A").2)
          "d1" false false
        = (200, some ⟨"d1", some body, some "A", 105, "en"⟩)
      ∧ (splitWords body).Nodup
      ∧ (splitWords body).Perm ((tokenize "the dog the" "en").dedup)
      ∧ body ≠ "the dog the" :=
  ⟨by decide, body_is_dedup_token_sequence 100 "d1" "the dog the" 105 "en" "A" (by decide)⟩

/-- C9: tokenize is a deterministic pure function of text and locale, every
emitted token is nonempty and free of uppercase ASCII letters, and the
concrete English example yields the lowercase tokens hello and world. -/
theorem tokenize_deterministic_lowercase (text locale : String) :
    tokenize text locale = tokenize text locale
    ∧ (∀ t ∈ tokenize text locale, t.data ≠ [] ∧ ∀ c ∈ t.data,
        ¬ (65 ≤ c.toNat ∧ c.toNat ≤ 90))
    ∧ "hello" ∈ tokenize "Hello Search World" "en"
    ∧ "world" ∈ tokenize "Hello Search World" "en" := by
  refine ⟨rfl, ?_, by decide, by decide⟩
  intro t ht
  have h := tokenize_good text locale t ht
  exact ⟨h.1, h.2.2⟩

/-- C10: deleting an existing like answers 200; repeating the same delete
on the now-absent record answers 404 and leaves the store unchanged. -/
theorem delete_like_twice_404 (likes : List String) (postId : String)
    (h : postId ∈ likes) :
    (deleteLike likes postId).1 = 200
    ∧ (deleteLike (deleteLike likes postId).2 postId).1 = 404
    ∧ (deleteLike (deleteLike likes postId).2 postId).2 = (deleteLike likes postId).2 := by
  have hneg : postId ∉ likes.filter (fun q => q != postId) := by
    intro hm
    have := List.of_mem_filter hm
    simp at this
  simp [deleteLike, h, hneg]

/-- C10 witness: the two deletes at a concrete one-element like store. -/
theorem delete_like_twice_404_witness :
    ("p1" ∈ ["p1", "p2"])
    ∧ (deleteLike ["p1", "p2"] "p1").1 = 200
    ∧ (deleteLike (deleteLike ["p1", "p2"] "p1").2 "p1").1 = 404
    ∧ (deleteLike (deleteLike ["p1", "p2"] "p1").2 "p1").2
        = (deleteLike ["p1", "p2"] "p1").2 :=
  ⟨by decide, delete_like_twice_404 ["p1", "p2"] "p1" (by decide)⟩

/-- A timestamp inside the range of a width-aligned bucket floors back to
that bucket's start. -/
theorem bucket_eq_of_mem_range (width k u : Nat) (hk : k % width = 0)
    (h1 : k ≤ u) (h2 : u < k + width) : bucketOf width u = k := by
  obtain ⟨q, hq⟩ := Nat.dvd_of_mod_eq_zero hk
  have hq' : q * width = k := by
    rw [Nat.mul_comm]
    exact hq.symm
  have hdiv : u / width = q := by
    refine Nat.div_eq_of_lt_le ?_ ?_
    · rw [hq']
      exact h1
    · rw [Nat.succ_mul, hq']
      omega
  unfold bucketOf
  rw [hdiv, hq']

/-- C2 counterexample: under the claim's own 100-second-wide flooring, the
flushed write at timestamp 100 of `test_shards` yields only a shard
starting at 100, never the shard starting at `testShardsTargetStart = 0`
that the test identifies as the one covering timestamp 100. -/
theorem shard_bucketing_100_counterexample :
    listShards (flushState (putDoc (initState 100) "shard-test-doc" "test" 100 "en" "").2)
      = [(100, 200)]
    ∧ ∀ se ∈ listShards (flushState
        (putDoc (initState 100) "shard-test-doc" "test" 100 "en" "").2),
        se.1 ≠ testShardsTargetStart := by
  constructor
  · rfl
  · decide

/-- C2 amended: with the engine's fixed flooring bucket width, which the
test pins above 100 seconds, a flushed write at timestamp T yields a listed
shard whose range contains T, with `bucketStart = floor(T / width) * width`;
in particular the shard covering timestamp 100 starts at 0, the value the
test looks for. -/
theorem shard_bucketing_flooring (width : Nat) (hw : 100 < width) (id text : String)
    (ts : Nat) (locale attrs : String) :
    (bucketOf width ts, bucketOf width ts + width)
        ∈ listShards (flushState (putDoc (initState width) id text ts locale attrs).2)
    ∧ bucketOf width ts ≤ ts
    ∧ ts < bucketOf width ts + width
    ∧ bucketOf width 100 = testShardsTargetStart := by
  refine ⟨?_, ?_, ?_, ?_⟩
  · rw [flush_put_init]
    simp [listShards]
  · exact Nat.div_mul_le_self ts width
  · have h2 : ts % width < width := Nat.mod_lt ts (by omega)
    calc ts = width * (ts / width) + ts % width := (Nat.div_add_mod ts width).symm
      _ < width * (ts / width) + width := Nat.add_lt_add_left h2 _
      _ = ts / width * width + width := by rw [Nat.mul_comm]
  · unfold bucketOf testShardsTargetStart
    rw [Nat.div_eq_of_lt hw, Nat.zero_mul]

/-- C2 amended witness: the covering shard at width 1000 and timestamp
100. -/
theorem shard_bucketing_flooring_witness :
    (100 < 1000)
    ∧ ((bucketOf 1000 100, bucketOf 1000 100 + 1000)
        ∈ listShards (flushState
            (putDoc (initState 1000) "shard-test-doc" "test" 100 "en" "").2)
      ∧ bucketOf 1000 100 ≤ 100
      ∧ 100 < bucketOf 1000 100 + 1000
      ∧ bucketOf 1000 100 = testShardsTargetStart) :=
  ⟨by decide, shard_bucketing_flooring 1000 (by decide) "shard-test-doc" "test" 100 "en" ""⟩

/-- C6: deleting a shard by any bucketTimestamp inside its range answers
200, and no listed shard covers any timestamp of the deleted range any
more; the bucket key is resolved by the same flooring function writes use. -/
theorem delete_shard_removes_range (st : EngineState) (b t : Nat) (ds : List Document)
    (hmul : ∀ p ∈ st.shards, p.1 % st.width = 0)
    (hmem : (b, ds) ∈ st.shards)
    (hlo : b ≤ t) (hhi : t < b + st.width) :
    (deleteShard st t).1 = 200
    ∧ ∀ u, b ≤ u → u < b + st.width →
        ∀ se ∈ listShards (deleteShard st t).2, ¬ (se.1 ≤ u ∧ u < se.2) := by
  have hkb : b % st.width = 0 := hmul (b, ds) hmem
  have hbt : bucketOf st.width t = b := bucket_eq_of_mem_range st.width b t hkb hlo hhi
  have hany : st.shards.any (fun p => p.1 == bucketOf st.width t) = true := by
    rw [List.any_eq_true]
    exact ⟨(b, ds), hmem, by simp [hbt]⟩
  have hstate : (deleteShard st t).2.shards
      = st.shards.filter (fun p => p.1 != bucketOf st.width t) := by
    unfold deleteShard
    simp [hany]
  have hwidth : (deleteShard st t).2.width = st.width := by
    unfold deleteShard
    simp [hany]
  constructor
  · unfold deleteShard
    simp [hany]
  · intro u hu1 hu2 se hse habs
    unfold listShards at hse
    rw [hstate, hwidth] at hse
    obtain ⟨p, hp, hpe⟩ := List.mem_map.mp hse
    obtain ⟨hpmem, hpne⟩ := List.mem_filter.mp hp
    rw [← hpe] at habs
    have he1 : bucketOf st.width u = p.1 :=
      bucket_eq_of_mem_range st.width p.1 u (hmul p hpmem) habs.1 habs.2
    have he2 : bucketOf st.width u = b :=
      bucket_eq_of_mem_range st.width b u hkb hu1 hu2
    rw [bne_iff_ne, hbt] at hpne
    exact hpne (he1.symm.trans he2)

/-- A concrete committed document for the structural-operation witnesses. -/
def sampleDoc : Document := ⟨"a", "x", 5, "en", "y"⟩

/-- A concrete two-shard store, width 100, with aligned bucket keys. -/
def sampleShardState : EngineState :=
  ⟨100, [], [(0, [sampleDoc]), (100, [])], false, false, []⟩

/-- C6 witness: deleting the shard covering timestamp 50 from the concrete
store. -/
theorem delete_shard_removes_range_witness :
    (∀ p ∈ sampleShardState.shards, p.1 % sampleShardState.width = 0)
    ∧ ((0, [sampleDoc]) ∈ sampleShardState.shards)
    ∧ 0 ≤ 50 ∧ 50 < 0 + sampleShardState.width
    ∧ ((deleteShard sampleShardState 50).1 = 200
      ∧ ∀ u, 0 ≤ u → u < 0 + sampleShardState.width →
          ∀ se ∈ listShards (deleteShard sampleShardState 50).2,
            ¬ (se.1 ≤ u ∧ u < se.2)) :=
  ⟨by decide, by decide, by decide, by decide,
    delete_shard_removes_range sampleShardState 0 50 [sampleDoc]
      (by decide) (by decide) (by decide) (by decide)⟩

/-- With pairwise distinct bucket keys, a key determines its document
list. -/
theorem keys_nodup_snd_eq (l : List (Nat × List Document))
    (hnd : (l.map Prod.fst).Nodup) (b : Nat) (ds ds' : List Document)
    (h1 : (b, ds) ∈ l) (h2 : (b, ds') ∈ l) : ds = ds' := by
  induction l with
  | nil => cases h1
  | cons p l ih =>
    rw [List.map_cons, List.nodup_cons] at hnd
    rcases List.mem_cons.mp h1 with e1 | m1
    · rcases List.mem_cons.mp h2 with e2 | m2
      · rw [← e1] at e2
        exact (Prod.mk.injEq b ds' b ds ▸ e2).2.symm
      · exfalso
        apply hnd.1
        rw [← e1]
        exact List.mem_map.mpr ⟨(b, ds'), m2, rfl⟩
    · rcases List.mem_cons.mp h2 with e2 | m2
      · exfalso
        apply hnd.1
        rw [← e2]
        exact List.mem_map.mpr ⟨(b, ds), m1, rfl⟩
      · exact ih hnd.2 m1 m2

/-- A shard with no document carrying the target id yields no point-lookup
hit. -/
theorem find?_none_of_no_id (ds : List Document) (target : String)
    (h : ∀ d ∈ ds, d.id ≠ target) :
    ds.find? (fun d => d.id == target) = none := by
  rw [List.find?_eq_none]
  intro d hd
  simp [h d hd]

/-- Reassignment gives document `i` the id `next + i`, and lookup by that
id finds exactly it when the rendered ids in the window are pairwise
distinct. -/
theorem find?_reassign (ds : List Document) :
    ∀ (next i : Nat) (hi : i < ds.length),
      (∀ a, a < ds.length → ∀ b, b < ds.length →
        Nat.repr (next + a) = Nat.repr (next + b) → a = b) →
      (reassignFrom next ds).find? (fun d => d.id == Nat.repr (next + i))
        = some { ds.get ⟨i, hi⟩ with id := Nat.repr (next + i) } := by
  induction ds with
  | nil =>
    intro next i hi
    exact absurd hi (by simp)
  | cons d ds ih =>
    intro next i hi hinj
    cases i with
    | zero =>
      rw [show reassignFrom next (d :: ds)
          = { d with id := Nat.repr next } :: reassignFrom (next + 1) ds from rfl]
      rw [List.find?_cons_of_pos _ (by simp)]
      rfl
    | succ j =>
      rw [show reassignFrom next (d :: ds)
          = { d with id := Nat.repr next } :: reassignFrom (next + 1) ds from rfl]
      have hne : (({ d with id := Nat.repr next } : Document).id
          == Nat.repr (next + (j + 1))) = false := by
        rw [beq_eq_false_iff_ne]
        intro he
        have h0 := hinj 0 (by simp) (j + 1) hi (by simpa using he)
        omega
      rw [List.find?_cons_of_neg _ (by simp [hne])]
      have hj : j < ds.length := Nat.lt_of_succ_lt_succ (by simpa using hi)
      have harith : next + (j + 1) = (next + 1) + j := by omega
      have hinj' : ∀ a, a < ds.length → ∀ b, b < ds.length →
          Nat.repr ((next + 1) + a) = Nat.repr ((next + 1) + b) → a = b := by
        intro a ha b hb he
        have hra : (next + 1) + a = next + (a + 1) := by omega
        have hrb : (next + 1) + b = next + (b + 1) := by omega
        rw [hra, hrb] at he
        have := hinj (a + 1) (by simpa using Nat.succ_lt_succ ha)
          (b + 1) (by simpa using Nat.succ_lt_succ hb) he
        omega
      rw [harith, ih (next + 1) j hj hinj']
      rfl

/-- Point lookup after reconstruction finds document `i` of the affected
shard under its new id, provided keys are distinct, the new ids are
pairwise distinct and no other shard carries one of them. -/
theorem lookupDoc_reconstruct (b newId : Nat) (docs : List Document) (i : Nat)
    (hi : i < docs.length)
    (hinj : ∀ a, a < docs.length → ∀ c, c < docs.length →
      Nat.repr (newId + a) = Nat.repr (newId + c) → a = c) :
    ∀ l : List (Nat × List Document), (l.map Prod.fst).Nodup → (b, docs) ∈ l →
      (∀ p ∈ l, p.1 ≠ b → ∀ d ∈ p.2, d.id ≠ Nat.repr (newId + i)) →
      lookupDoc (l.map (fun p => if p.1 == b then (p.1, reassignFrom newId p.2) else p))
          (Nat.repr (newId + i))
        = some { docs.get ⟨i, hi⟩ with id := Nat.repr (newId + i) } := by
  intro l
  induction l with
  | nil =>
    intro _ hmem
    cases hmem
  | cons p l ih =>
    intro hnd hmem hother
    by_cases hb : p.1 = b
    · have hpm : (b, p.2) ∈ p :: l := by
        rw [← hb]
        exact List.mem_cons_self p l
      have hds : p.2 = docs := keys_nodup_snd_eq (p :: l) hnd b p.2 docs hpm hmem
      rw [List.map_cons]
      unfold lookupDoc
      rw [List.findSome?_cons_of_isSome]
      · rw [if_pos (by simp [hb])]
        show (reassignFrom newId p.2).find? (fun d => d.id == Nat.repr (newId + i)) = _
        rw [hds, find?_reassign docs newId i hi hinj]
      · rw [if_pos (by simp [hb])]
        show ((reassignFrom newId p.2).find? (fun d => d.id == Nat.repr (newId + i))).isSome
        rw [hds, find?_reassign docs newId i hi hinj]
        rfl
    · have hmem' : (b, docs) ∈ l := by
        rcases List.mem_cons.mp hmem with e | m
        · exact absurd (by rw [← e]) hb
        · exact m
      rw [List.map_cons]
      unfold lookupDoc
      rw [List.findSome?_cons_of_isNone]
      · rw [List.map_cons, List.nodup_cons] at hnd
        exact ih hnd.2 hmem' (fun q hq => hother q (List.mem_cons_of_mem p hq))
      · rw [if_neg (by simp [hb])]
        show (p.2.find? (fun d => d.id == Nat.repr (newId + i))).isNone
        rw [find?_none_of_no_id p.2 _ (hother p (List.mem_cons_self p l) hb)]
        rfl

/-- C7: after reconstruct(timestamp, newInitialId), every document of the
affected shard is fetchable under its new sequential id with bodyText,
locale and attrs identical to before. -/
theorem reconstruct_preserves_content (st : EngineState) (timestamp newInitialId : Nat)
    (docs : List Document)
    (hnd : (st.shards.map Prod.fst).Nodup)
    (hmem : (bucketOf st.width timestamp, docs) ∈ st.shards)
    (hinj : ∀ a, a < docs.length → ∀ c, c < docs.length →
      Nat.repr (newInitialId + a) = Nat.repr (newInitialId + c) → a = c)
    (hfresh : ∀ p ∈ st.shards, p.1 ≠ bucketOf st.width timestamp →
      ∀ d ∈ p.2, ∀ i, i < docs.length → d.id ≠ Nat.repr (newInitialId + i)) :
    ∀ i, (hi : i < docs.length) →
      fetchDoc (reconstructShards st timestamp newInitialId)
          (Nat.repr (newInitialId + i)) false false
        = (200, some ⟨Nat.repr (newInitialId + i), some (docs.get ⟨i, hi⟩).bodyText,
            some (docs.get ⟨i, hi⟩).attrs, (docs.get ⟨i, hi⟩).timestamp,
            (docs.get ⟨i, hi⟩).locale⟩) := by
  intro i hi
  have hl := lookupDoc_reconstruct (bucketOf st.width timestamp) newInitialId docs i hi hinj
    st.shards hnd hmem (fun p hp hne d hd => hfresh p hp hne d hd i hi)
  unfold fetchDoc
  rw [show (reconstructShards st timestamp newInitialId).shards
      = st.shards.map (fun p => if p.1 == bucketOf st.width timestamp
          then (p.1, reassignFrom newInitialId p.2) else p) from rfl]
  rw [hl]
  rfl

/-- Concrete documents for the reconstruction witness. -/
def docA : Document := ⟨"a", "body a", 10, "en", "attA"⟩

/-- Second concrete document of the reconstructed shard. -/
def docB : Document := ⟨"b", "body b", 20, "en", "attB"⟩

/-- A document in an unaffected shard. -/
def docC : Document := ⟨"c", "body c", 150, "en", "attC"⟩

/-- A two-shard store for the reconstruction witness, width 100. -/
def reconState : EngineState :=
  ⟨100, [], [(0, [docA, docB]), (100, [docC])], false, false, []⟩

/-- C7 witness: reconstructing the shard covering timestamp 50 with new
initial id 500 leaves document 0 fetchable as id 500 with identical
content. -/
theorem reconstruct_preserves_content_witness :
    ((reconState.shards.map Prod.fst).Nodup)
    ∧ ((bucketOf reconState.width 50, [docA, docB]) ∈ reconState.shards)
    ∧ (∀ a, a < ([docA, docB] : List Document).length →
        ∀ c, c < ([docA, docB] : List Document).length →
        Nat.repr (500 + a) = Nat.repr (500 + c) → a = c)
    ∧ (∀ p ∈ reconState.shards, p.1 ≠ bucketOf reconState.width 50 →
        ∀ d ∈ p.2, ∀ i, i < ([docA, docB] : List Document).length →
          d.id ≠ Nat.repr (500 + i))
    ∧ fetchDoc (reconstructShards reconState 50 500) "500" false false
        = (200, some ⟨"500", some "body a", some "attA", 10, "en"⟩) := by
  refine ⟨by decide, by decide, by decide, by decide, ?_⟩
  exact reconstruct_preserves_content reconState 50 500 [docA, docB]
    (by decide) (by decide) (by decide) (by decide) 0 (by decide)
